import Mathlib

/-!
# Verification of the snarkVM `Stack` / `CallStack` module and AHP prover init

Shallow embedding of:
* `vm/compiler/src/process/stack/mod.rs` — the `CallStack` state machine and
  the `Stack` (program linking, key caches, call-graph accounting);
* `algorithms/src/snark/marlin/ahp/prover/round_functions/mod.rs` —
  `AHPForR1CS::init_prover` and the `inner_product` helper.

Rust `Result<T>` is embedded as `Except String T`; `&mut self` methods are
embedded as state-passing functions returning the updated value alongside the
result.  `Arc<RwLock<_>>` payloads of `CallStack` are embedded as addresses
into an explicit heap, so that aliasing (or its absence) is observable.
-/

namespace SnarkVM

/-- Decidable equality of `Except` results, used to evaluate claims on
concrete inputs. -/
instance {e a : Type} [DecidableEq e] [DecidableEq a] : DecidableEq (Except e a) := fun x y =>
  match x, y with
  | .ok u, .ok v =>
      if h : u = v then .isTrue (by rw [h]) else .isFalse (by intro hh; cases hh; exact h rfl)
  | .error u, .error v =>
      if h : u = v then .isTrue (by rw [h]) else .isFalse (by intro hh; cases hh; exact h rfl)
  | .ok _, .error _ => .isFalse (by intro hh; cases hh)
  | .error _, .ok _ => .isFalse (by intro hh; cases hh)

/-- Requests are treated as opaque values; `Nat` suffices for the claims. -/
abbrev Req := Nat

/-- Private keys are opaque to this module. -/
abbrev PKey := Nat

/-- A single circuit assignment (opaque payload of the `CheckDeployment` heap cell). -/
abbrev Assignment := Nat

/-- An `Execution` under construction (opaque payload of the `Execute` heap cell). -/
abbrev ExecutionData := List Nat

/-- Modelled from the spec: `Authorization` (file `authorization.rs`, not in scope)
is "an ordered, cursor-bearing queue of pending Requests": `push` appends at the
end, `next` yields the request at the cursor (the order originally enqueued) and
advances the cursor, `peek_next` yields it without advancing, `replicate` makes
an independent replica. -/
structure Authorization where
  requests : List Req
  cursor : Nat
  deriving DecidableEq, Repr

namespace Authorization

/-- Modelled from the spec: `push` appends the request at the end of the queue. -/
def push (a : Authorization) (r : Req) : Authorization :=
  { a with requests := a.requests ++ [r] }

/-- Modelled from the spec: `next` returns the request at the cursor (FIFO:
the order originally enqueued) and advances the cursor; fails when every
enqueued request has already been consumed. -/
def next (a : Authorization) : Except String Req × Authorization :=
  match a.requests[a.cursor]? with
  | some r => (.ok r, { a with cursor := a.cursor + 1 })
  | none => (.error "No more requests in the authorization", a)

/-- Modelled from the spec: `peek_next` returns the request at the cursor
without advancing it. -/
def peek_next (a : Authorization) : Except String Req :=
  match a.requests[a.cursor]? with
  | some r => .ok r
  | none => .error "No more requests in the authorization"

/-- Modelled from the spec: `replicate` returns an independent replica; as a
pure value the replica is just a copy. -/
def replicate (a : Authorization) : Authorization := a

end Authorization

/-- The heap backing the `Arc<RwLock<_>>` payloads: one store of
`Vec<Assignment>` cells (for `CheckDeployment`) and one store of `Execution`
cells (for `Execute`).  An address is an index into the respective store. -/
structure Heap where
  assignments : List (List Assignment)
  executions : List ExecutionData
  deriving DecidableEq, Repr

namespace Heap

/-- Read the assignments cell behind an address (`none` models a dangling
address, which well-formed call stacks never produce). -/
def readA (h : Heap) (addr : Nat) : Option (List Assignment) :=
  h.assignments[addr]?

/-- Read the execution cell behind an address. -/
def readE (h : Heap) (addr : Nat) : Option ExecutionData :=
  h.executions[addr]?

/-- Overwrite the assignments cell behind an address (a write through the lock). -/
def writeA (h : Heap) (addr : Nat) (v : List Assignment) : Heap :=
  { h with assignments := h.assignments.set addr v }

/-- Overwrite the execution cell behind an address. -/
def writeE (h : Heap) (addr : Nat) (v : ExecutionData) : Heap :=
  { h with executions := h.executions.set addr v }

/-- Allocate a fresh assignments cell, returning its address. -/
def allocA (h : Heap) (v : List Assignment) : Heap × Nat :=
  ({ h with assignments := h.assignments ++ [v] }, h.assignments.length)

/-- Allocate a fresh execution cell, returning its address. -/
def allocE (h : Heap) (v : ExecutionData) : Heap × Nat :=
  ({ h with executions := h.executions ++ [v] }, h.executions.length)

end Heap

/-- `CallStack<N>` from `stack/mod.rs` (lines 85-92): five variants.  The
`Assignments<N>` and `Arc<RwLock<Execution<N>>>` payloads are embedded as heap
addresses. -/
inductive CallStack where
  | Authorize (requests : List Req) (private_key : PKey) (authorization : Authorization)
  | Synthesize (requests : List Req) (private_key : PKey) (authorization : Authorization)
  | CheckDeployment (requests : List Req) (private_key : PKey) (assignments : Nat)
  | Evaluate (authorization : Authorization)
  | Execute (authorization : Authorization) (execution : Nat)
  deriving DecidableEq, Repr

namespace CallStack

/-- `CallStack::push` (lines 129-138): the three explicit-list variants append
the request to their `Vec` (`Vec::push` appends at the end); `Evaluate` and
`Execute` delegate to the authorization's `push`.  The Rust method returns
`Result<()>` but always `Ok`, so the embedding returns just the new state. -/
def push (cs : CallStack) (r : Req) : CallStack :=
  match cs with
  | .Authorize requests pk auth => .Authorize (requests ++ [r]) pk auth
  | .Synthesize requests pk auth => .Synthesize (requests ++ [r]) pk auth
  | .CheckDeployment requests pk a => .CheckDeployment (requests ++ [r]) pk a
  | .Evaluate auth => .Evaluate (auth.push r)
  | .Execute auth e => .Execute (auth.push r) e

/-- `CallStack::pop` (lines 141-151): the three explicit-list variants remove
and return the last element (`Vec::pop`), failing with "No more requests on
the stack" when empty; `Evaluate` and `Execute` delegate to the
authorization's `next`. -/
def pop (cs : CallStack) : Except String Req × CallStack :=
  match cs with
  | .Authorize requests pk auth =>
      match requests.getLast? with
      | some r => (.ok r, .Authorize requests.dropLast pk auth)
      | none => (.error "No more requests on the stack", cs)
  | .Synthesize requests pk auth =>
      match requests.getLast? with
      | some r => (.ok r, .Synthesize requests.dropLast pk auth)
      | none => (.error "No more requests on the stack", cs)
  | .CheckDeployment requests pk a =>
      match requests.getLast? with
      | some r => (.ok r, .CheckDeployment requests.dropLast pk a)
      | none => (.error "No more requests on the stack", cs)
  | .Evaluate auth =>
      match auth.next with
      | (res, auth') => (res, .Evaluate auth')
  | .Execute auth e =>
      match auth.next with
      | (res, auth') => (res, .Execute auth' e)

/-- `CallStack::peek` (lines 154-164): the explicit-list variants return a
clone of the last element (`Vec::last`) without removing it, failing with
"No more requests on the stack" when empty; `Evaluate` and `Execute` delegate
to the authorization's `peek_next`.  No variant is modified. -/
def peek (cs : CallStack) : Except String Req :=
  match cs with
  | .Authorize requests _ _ =>
      match requests.getLast? with
      | some r => .ok r
      | none => .error "No more requests on the stack"
  | .Synthesize requests _ _ =>
      match requests.getLast? with
      | some r => .ok r
      | none => .error "No more requests on the stack"
  | .CheckDeployment requests _ _ =>
      match requests.getLast? with
      | some r => .ok r
      | none => .error "No more requests on the stack"
  | .Evaluate auth => auth.peek_next
  | .Execute auth _ => auth.peek_next

/-- `CallStack::replicate` (lines 108-126): `Authorize`/`Synthesize`/`Evaluate`
clone their components and replicate the authorization; `CheckDeployment` and
`Execute` read the current contents of their lock-guarded payload and place a
copy behind a freshly allocated lock (`Arc::new(RwLock::new(payload.read().clone()))`).
A dangling address (never produced by the code) replicates to a cell holding
the empty payload. -/
def replicate (cs : CallStack) (h : Heap) : CallStack × Heap :=
  match cs with
  | .Authorize requests pk auth => (.Authorize requests pk auth.replicate, h)
  | .Synthesize requests pk auth => (.Synthesize requests pk auth.replicate, h)
  | .CheckDeployment requests pk addr =>
      let contents := (h.readA addr).getD []
      let alloc := h.allocA contents
      (.CheckDeployment requests pk alloc.2, alloc.1)
  | .Evaluate auth => (.Evaluate auth.replicate, h)
  | .Execute auth addr =>
      let contents := (h.readE addr).getD []
      let alloc := h.allocE contents
      (.Execute auth.replicate alloc.2, alloc.1)

end CallStack

/-! ## Association-list maps (embedding `IndexMap`)

`IndexMap::insert` replaces the value of an existing key in place and appends
a new key at the end; lookup finds the unique entry for a key. -/

/-- Lookup in an association list (embeds `IndexMap::get`). -/
def mapGet {K V : Type} [DecidableEq K] : List (K × V) → K → Option V
  | [], _ => none
  | (k', v) :: rest, k => if k' = k then some v else mapGet rest k

/-- Key membership (embeds `IndexMap::contains_key`). -/
def mapContains {K V : Type} [DecidableEq K] (m : List (K × V)) (k : K) : Bool :=
  (mapGet m k).isSome

/-- Insert (embeds `IndexMap::insert`): replaces the value of an existing key
in place, otherwise appends the new entry at the end. -/
def mapInsert {K V : Type} [DecidableEq K] : List (K × V) → K → V → List (K × V)
  | [], k, v => [(k, v)]
  | (k', v') :: rest, k, v =>
      if k' = k then (k', v) :: rest else (k', v') :: mapInsert rest k v

/-! ## Identifiers, programs, processes -/

/-- Function, closure, record and resource names are opaque identifiers. -/
abbrev Identifier := Nat

/-- Modelled from the spec: a `ProgramID` (external `console` type) carries a
name and a network-level domain suffix; `is_aleo` holds exactly when the
suffix is the `aleo` domain of this network. -/
structure ProgramID where
  name : Nat
  network : String
  deriving DecidableEq, Repr

/-- Modelled from the spec: the network-level domain check used by `Stack::new`. -/
def ProgramID.is_aleo (id : ProgramID) : Bool := id.network == "aleo"

/-- `CallOperator` (external `vm` type): a call target, either an external
locator (program ID plus resource name) or a local resource name. -/
inductive CallOperator where
  | locator (program_id : ProgramID) (resource : Identifier)
  | resource (r : Identifier)
  deriving DecidableEq, Repr

/-- An instruction of a function body: only `Call` instructions matter to this
module; every other opcode is opaque. -/
inductive Instruction where
  | call (op : CallOperator)
  | other (opcode : Nat)
  deriving DecidableEq, Repr

/-- A function of a program: its body as a list of instructions. -/
structure Function where
  instructions : List Instruction
  deriving DecidableEq, Repr

/-- Modelled from the spec: a `Program` (external, immutable compiled unit) —
identifier, named functions, closure names, record type declarations. -/
structure Program where
  id : ProgramID
  functions : List (Identifier × Function)
  closures : List Identifier
  records : List Identifier
  deriving DecidableEq, Repr

namespace Program

/-- Modelled from the spec: function-name membership in the program. -/
def contains_function (p : Program) (f : Identifier) : Bool :=
  mapContains p.functions f

/-- Modelled from the spec: function lookup in the program. -/
def get_function (p : Program) (f : Identifier) : Except String Function :=
  match mapGet p.functions f with
  | some fn => .ok fn
  | none => .error "Function does not exist"

/-- Modelled from the spec: record-type membership in the program. -/
def contains_record (p : Program) (r : Identifier) : Bool :=
  p.records.contains r

end Program

/-- Modelled from the spec: a `Process` is an external registry of all loaded
programs; this module only consumes `contains_program`. -/
structure Process where
  programs : List ProgramID
  deriving DecidableEq, Repr

/-- Modelled from the spec: `Process::contains_program`. -/
def Process.contains_program (p : Process) (id : ProgramID) : Bool :=
  p.programs.contains id

/-- A `Locator` (external `console` type): a resource qualified by a program ID. -/
structure Locator where
  program_id : ProgramID
  resource : Identifier
  deriving DecidableEq, Repr

/-- Register types are opaque to this module. -/
abbrev RegisterTypes := Nat

/-- Proving keys are opaque artifacts stored verbatim. -/
abbrev ProvingKey := Nat

/-- Verifying keys are opaque artifacts stored verbatim. -/
abbrev VerifyingKey := Nat

/-- `Stack<N>` from `stack/mod.rs` (lines 167-181): the owned program, the
external stacks keyed by imported program ID, the register-types map, the
universal SRS handle (opaque), and the two key caches.  A nested inductive,
since external stacks are themselves stacks. -/
inductive Stack where
  | mk (program : Program)
      (external_stacks : List (ProgramID × Stack))
      (program_types : List (Identifier × RegisterTypes))
      (universal_srs : Nat)
      (proving_keys : List (Identifier × ProvingKey))
      (verifying_keys : List (Identifier × VerifyingKey))

namespace Stack

/-- The owned program. -/
def program : Stack → Program
  | .mk p _ _ _ _ _ => p

/-- The external stacks, keyed by imported program ID. -/
def external_stacks : Stack → List (ProgramID × Stack)
  | .mk _ e _ _ _ _ => e

/-- The register-types map. -/
def program_types : Stack → List (Identifier × RegisterTypes)
  | .mk _ _ t _ _ _ => t

/-- The universal SRS handle. -/
def universal_srs : Stack → Nat
  | .mk _ _ _ u _ _ => u

/-- The proving-key cache. -/
def proving_keys : Stack → List (Identifier × ProvingKey)
  | .mk _ _ _ _ pk _ => pk

/-- The verifying-key cache. -/
def verifying_keys : Stack → List (Identifier × VerifyingKey)
  | .mk _ _ _ _ _ vk => vk

/-- Replace the proving-key cache (the effect of a write through its lock). -/
def withProvingKeys : Stack → List (Identifier × ProvingKey) → Stack
  | .mk p e t u _ vk, pk => .mk p e t u pk vk

/-- Replace the verifying-key cache (the effect of a write through its lock). -/
def withVerifyingKeys : Stack → List (Identifier × VerifyingKey) → Stack
  | .mk p e t u pk _, vk => .mk p e t u pk vk

/-- `Stack::program_id` (lines 217-220). -/
def program_id (s : Stack) : ProgramID := s.program.id

/-- `Stack::get_external_stack` (lines 235-239): lookup in `external_stacks`,
failing when absent. -/
def get_external_stack (s : Stack) (pid : ProgramID) : Except String Stack :=
  match mapGet s.external_stacks pid with
  | some st => .ok st
  | none => .error "External program does not exist."

/-- `Stack::get_external_program` (lines 242-249): the stack's own program is
never external; otherwise resolve through `get_external_stack`. -/
def get_external_program (s : Stack) (pid : ProgramID) : Except String Program :=
  if s.program.id = pid then
    .error "Attempted to get the main program as an external program"
  else
    (s.get_external_stack pid).map Stack.program

/-- `Stack::contains_external_record` (lines 223-232): resolve the external
program; `true` iff it declares the record, `false` on any resolution failure. -/
def contains_external_record (s : Stack) (loc : Locator) : Bool :=
  match s.get_external_program loc.program_id with
  | .ok external_program => external_program.contains_record loc.resource
  | .error _ => false

/-- `Stack::get_function` (lines 261-268): fails when the name is not a
declared function of the program. -/
def get_function (s : Stack) (function_name : Identifier) : Except String Function :=
  match s.program.contains_function function_name with
  | true => s.program.get_function function_name
  | false => .error "Function does not exist in program"

/-- `Stack::contains_proving_key` (lines 300-303). -/
def contains_proving_key (s : Stack) (function_name : Identifier) : Bool :=
  mapContains s.proving_keys function_name

/-- `Stack::contains_verifying_key` (lines 306-309). -/
def contains_verifying_key (s : Stack) (function_name : Identifier) : Bool :=
  mapContains s.verifying_keys function_name

/-- `Stack::get_proving_key` (lines 312-319). -/
def get_proving_key (s : Stack) (function_name : Identifier) : Except String ProvingKey :=
  match mapGet s.proving_keys function_name with
  | some proving_key => .ok proving_key
  | none => .error "Proving key not found"

/-- `Stack::get_verifying_key` (lines 322-329). -/
def get_verifying_key (s : Stack) (function_name : Identifier) : Except String VerifyingKey :=
  match mapGet s.verifying_keys function_name with
  | some verifying_key => .ok verifying_key
  | none => .error "Verifying key not found"

/-- `Stack::insert_proving_key` (lines 332-343): rejected before any mutation
when the name is not a declared function; otherwise overwrites the cached
entry.  The method takes `&self` and mutates through the lock, so it is
embedded as state-passing: the returned stack is unchanged on failure. -/
def insert_proving_key (s : Stack) (function_name : Identifier) (proving_key : ProvingKey) :
    Except String Unit × Stack :=
  match s.program.contains_function function_name with
  | true => (.ok (), s.withProvingKeys (mapInsert s.proving_keys function_name proving_key))
  | false => (.error "Function does not exist in program", s)

/-- `Stack::insert_verifying_key` (lines 346-357): mirror of
`insert_proving_key` on the verifying-key cache. -/
def insert_verifying_key (s : Stack) (function_name : Identifier) (verifying_key : VerifyingKey) :
    Except String Unit × Stack :=
  match s.program.contains_function function_name with
  | true => (.ok (), s.withVerifyingKeys (mapInsert s.verifying_keys function_name verifying_key))
  | false => (.error "Function does not exist in program", s)

end Stack

/-- Modelled from the spec: `Call::is_function_call` (file `call.rs`, not in
scope) — a call is a function call (as opposed to a closure invocation) when
its target resolves to a declared function: an external locator resolves
through `get_external_program`, a local resource against the stack's own
program. -/
def isFunctionCall (s : Stack) (op : CallOperator) : Except String Bool :=
  match op with
  | .locator pid res => (s.get_external_program pid).map (fun p => p.contains_function res)
  | .resource res => .ok (s.program.contains_function res)

/-- One fold step of `Stack::get_number_of_calls` (lines 275-288), with the
recursive count supplied as a function argument: a `Call` instruction that is
a function call adds the callee's count — through the external stack for a
locator, locally for a resource — and every other instruction adds nothing. -/
def callStep (s : Stack) (recur : Stack → Identifier → Except String Nat)
    (acc : Nat) (instruction : Instruction) : Except String Nat :=
  match instruction with
  | .call op => do
      let is_fn ← isFunctionCall s op
      if is_fn then
        match op with
        | .locator pid res => do
            let ext ← s.get_external_stack pid
            let n ← recur ext res
            pure (acc + n)
        | .resource res => do
            let n ← recur s res
            pure (acc + n)
      else
        pure acc
  | .other _ => pure acc

/-- `Stack::get_number_of_calls` (lines 271-290): `1` for the function itself,
plus, for each `Call` instruction that is a function call, the recursively
computed count of the callee.  The Rust recursion is unbounded (the spec
assumes an acyclic import/call graph); the embedding makes the recursion
depth explicit as fuel, and exhausted fuel — which corresponds to divergence
of the original on a cyclic graph — is an error. -/
def getNumberOfCalls : Nat → Stack → Identifier → Except String Nat
  | 0, _, _ => .error "call graph recursion exceeded the fuel bound"
  | fuel + 1, s, function_name => do
      let fn ← s.get_function function_name
      fn.instructions.foldlM (callStep s (getNumberOfCalls fuel)) 1

mutual

/-- `impl PartialEq for Stack` (lines 372-378): equality by `program`,
`external_stacks` and `program_types` only; the SRS handle and both key
caches are excluded.  `IndexMap` equality on the external stacks recursively
uses this same instance, hence the mutual recursion with pairwise equality of
the entries. -/
def Stack.beq : Stack → Stack → Bool
  | .mk p1 e1 t1 _ _ _, .mk p2 e2 t2 _ _ _ =>
      decide (p1 = p2) && extStacksBeq e1 e2 && decide (t1 = t2)

/-- Entry-wise equality of two `external_stacks` maps (same keys with
`Stack.beq`-equal values, in the same positions). -/
def extStacksBeq : List (ProgramID × Stack) → List (ProgramID × Stack) → Bool
  | [], [] => true
  | (k1, s1) :: r1, (k2, s2) :: r2 => decide (k1 = k2) && Stack.beq s1 s2 && extStacksBeq r1 r2
  | _, _ => false

end

/-- Modelled from the spec: the canonical byte and text codecs of `Program`
(external collaborator; "canonical byte encode/decode, canonical text
encode/decode").  `Stack::new` only compares their round trips, so they are
injected as data: `toBytes` may fail (`to_bytes_le` returns `Result`),
decoding may fail, and a lossy codec is representable. -/
structure ProgramCodec where
  toBytes : Program → Except String (List Nat)
  fromBytes : List Nat → Except String Program
  toText : Program → String
  fromText : String → Except String Program

/-- `Stack::new` (lines 186-208): ensure the process does not already contain
the program ID, the network-level domain is correct, and the program has at
least one function; then check the byte round trip and the text round trip;
only then delegate to `Stack::initialize`.  The internal initializer (file
`helpers/initialize.rs`, not in scope) is injected as `initialize`. -/
def Stack.new (codec : ProgramCodec) (initFn : Process → Program → Except String Stack)
    (process : Process) (program : Program) : Except String Stack :=
  if process.contains_program program.id then
    .error "Program already exists"
  else if !program.id.is_aleo then
    .error "Program has an incorrect network-level domain (NLD)"
  else if program.functions.isEmpty then
    .error "No functions present in the deployment"
  else
    match codec.toBytes program with
    | .error e => .error e
    | .ok program_bytes =>
      match codec.fromBytes program_bytes with
      | .error e => .error e
      | .ok decoded =>
        if program ≠ decoded then
          .error "Program byte serialization failed"
        else
          match codec.fromText (codec.toText program) with
          | .error e => .error e
          | .ok parsed =>
            if program ≠ parsed then
              .error "Program string serialization failed"
            else
              initFn process program

/-! ## The AHP prover initialization
(`algorithms/src/snark/marlin/ahp/prover/round_functions/mod.rs`)

The field `F` is embedded as `Int` (only ring operations and the `is_one`
test occur); circuits, instances and constraint systems keep exactly the
components the two functions touch. -/

/-- The index information of a `Circuit` used by `init_prover`. -/
structure IndexInfo where
  num_constraints : Nat
  num_variables : Nat
  deriving DecidableEq, Repr

/-- A Marlin `Circuit` as consumed by `init_prover`: its index info and the
`A` and `B` constraint matrices as sparse rows of `(coefficient, column)`
pairs.  Keys of the circuit map are compared by this whole value. -/
structure Circuit where
  index_info : IndexInfo
  a : List (List (Int × Nat))
  b : List (List (Int × Nat))
  deriving DecidableEq, Repr

/-- The fields of `prover::ConstraintSystem` destructured by `init_prover`
after constraint generation and padding. -/
structure ConstraintSystem where
  public_variables : List Int
  private_variables : List Int
  num_constraints : Nat
  num_public_variables : Nat
  num_private_variables : Nat
  deriving DecidableEq, Repr

/-- `prover::Assignments<F>`: padded public variables, private variables, and
the evaluations `z_A`, `z_B`. -/
structure Assignments where
  public_variables : List Int
  private_variables : List Int
  z_a : List Int
  z_b : List Int
  deriving DecidableEq, Repr

/-- `AHPError` as it occurs in `init_prover`: the index mismatch, an error
propagated from constraint generation or the admissibility check, or a Rust
panic of one of the three assertions (embedded as an error value,
distinguished by its own constructor). -/
inductive AHPError where
  | instanceDoesNotMatchIndex
  | constraintSystemError (code : Nat)
  | panicked
  deriving DecidableEq, Repr

/-- `inner_product` (lines 128-147): fold over the sparse row; an index below
`num_public_variables` reads the public variables, any other index reads the
private variables at the shifted position.  Rust's panicking slice indexing
is embedded with default `0`; `inner_product_checked` below makes the
bounds-check explicit. -/
def inner_product (public_variables private_variables : List Int)
    (row : List (Int × Nat)) (num_public_variables : Nat) : Int :=
  row.foldl
    (fun result entry =>
      let var :=
        if entry.2 < num_public_variables then (public_variables[entry.2]?).getD 0
        else (private_variables[entry.2 - num_public_variables]?).getD 0
      result + (if entry.1 = 1 then var else var * entry.1))
    0

/-- `inner_product` with Rust's panicking slice indexing made explicit:
`none` is the panic of an out-of-bounds access. -/
def inner_product_checked (public_variables private_variables : List Int)
    (row : List (Int × Nat)) (num_public_variables : Nat) : Option Int :=
  row.foldlM
    (fun result entry => do
      let var ←
        if entry.2 < num_public_variables then public_variables[entry.2]?
        else private_variables[entry.2 - num_public_variables]?
      pure (result + (if entry.1 = 1 then var else var * entry.1)))
    0

/-- Instances of a circuit are opaque: constraint generation for them is the
caller-supplied `ConstraintSynthesizer` implementation, injected into
`init_prover` as a function. -/
abbrev Inst := Nat

/-- `collect::<Result<Vec<_>, _>>()` over an iterator of fallible items: the
first error wins, otherwise the successes are collected in order. -/
def collectResults {a b e : Type} (f : a → Except e b) : List a → Except e (List b)
  | [] => .ok []
  | x :: xs => do
      let y ← f x
      let ys ← collectResults f xs
      pure (y :: ys)

/-- The per-instance body of `init_prover` (lines 54-113): generate and pad
the constraints (the external synthesizer plus padding is injected as `gen`,
producing the destructured `prover::ConstraintSystem`), run the three
assertions (a failed `assert!` is a panic, embedded as `.panicked`; indexing
`public_variables[0]` on an empty vector likewise), reject an instance that
does not match the index, check admissibility of the formatted public input
(external, injected as `admissible`), and evaluate `z_A` and `z_B` by
`inner_product` over the circuit's `A` and `B` rows. -/
def processInstance (gen : Inst → Except AHPError ConstraintSystem)
    (admissible : List Int → Except AHPError Unit)
    (c : Circuit) (inst : Inst) : Except AHPError Assignments := do
  let pcs ← gen inst
  if pcs.public_variables.length ≠ pcs.num_public_variables then .error .panicked
  else if ((pcs.public_variables[0]?).getD 0) ≠ 1 then .error .panicked
  else if pcs.private_variables.length ≠ pcs.num_private_variables then .error .panicked
  else if c.index_info.num_constraints ≠ pcs.num_constraints
      ∨ c.index_info.num_variables ≠ pcs.num_public_variables + pcs.num_private_variables then
    .error .instanceDoesNotMatchIndex
  else do
    let _ ← admissible pcs.public_variables
    let z_a := c.a.map (fun row =>
      inner_product pcs.public_variables pcs.private_variables row pcs.num_public_variables)
    let z_b := c.b.map (fun row =>
      inner_product pcs.public_variables pcs.private_variables row pcs.num_public_variables)
    pure ⟨pcs.public_variables, pcs.private_variables, z_a, z_b⟩

/-- `AHPForR1CS::init_prover` (lines 41-125): for each circuit and its slice
of instances, compute the per-instance assignments in instance order
(short-circuiting on the first error), pair them with the circuit, collect
(the source's `BTreeMap` is embedded as the association list in iteration
order), and delegate to `prover::State::initialize` (external, injected as
`stInit`). -/
def init_prover {S : Type} (stInit : List (Circuit × List Assignments) → Except AHPError S)
    (gen : Inst → Except AHPError ConstraintSystem)
    (admissible : List Int → Except AHPError Unit)
    (circuits : List (Circuit × List Inst)) : Except AHPError S := do
  let indices_and_assignments ← collectResults
    (fun cp => do
      let assignments ← collectResults (processInstance gen admissible cp.1) cp.2
      pure (cp.1, assignments))
    circuits
  stInit indices_and_assignments

/-- A sample circuit: one constraint, one variable, `A` and `B` each a single
row `[(1, 0)]`. -/
def egCircuit : Circuit := { index_info := ⟨1, 1⟩, a := [[(1, 0)]], b := [[(1, 0)]] }

/-- The constraint system every sample instance generates: one public
variable `1`, no private variables. -/
def egCS : ConstraintSystem :=
  { public_variables := [1], private_variables := []
    num_constraints := 1, num_public_variables := 1, num_private_variables := 0 }

/-- Removal from an association list (embeds `IndexMap::remove`). -/
def mapRemove {K V : Type} [DecidableEq K] (m : List (K × V)) (k : K) : List (K × V) :=
  m.filter (fun p => decide (p.1 ≠ k))

/-- `Stack::remove_proving_key` (lines 361-363): idempotent removal. -/
def Stack.remove_proving_key (s : Stack) (function_name : Identifier) : Stack :=
  s.withProvingKeys (mapRemove s.proving_keys function_name)

/-- `Stack::remove_verifying_key` (lines 367-369): idempotent removal. -/
def Stack.remove_verifying_key (s : Stack) (function_name : Identifier) : Stack :=
  s.withVerifyingKeys (mapRemove s.verifying_keys function_name)

/-! ## Concrete sample values used by the witnesses -/

/-- A sample program ID on the correct network-level domain. -/
def egProgramId : ProgramID := ⟨0, "aleo"⟩

/-- A sample program with one function (name `0`, empty body) and one record (`7`). -/
def egProgram : Program :=
  { id := egProgramId, functions := [(0, ⟨[]⟩)], closures := [], records := [7] }

/-- A sample external program (ID `1`) declaring function `0` and record `7`. -/
def egExtProgram : Program :=
  { id := ⟨1, "aleo"⟩, functions := [(0, ⟨[]⟩)], closures := [], records := [7] }

/-- The stack of the sample external program. -/
def egExtStack : Stack := .mk egExtProgram [] [] 0 [] []

/-- A sample stack for `egProgram` with no imports. -/
def egStack : Stack := .mk egProgram [] [] 0 [] []

/-- A sample stack for `egProgram` importing `egExtProgram`. -/
def egStack2 : Stack := .mk egProgram [(⟨1, "aleo"⟩, egExtStack)] [] 0 [] []

/-- The three explicit-list variants of the call stack
(`Authorize`, `Synthesize`, `CheckDeployment`). -/
def CallStack.isExplicitList : CallStack → Bool
  | .Authorize _ _ _ => true
  | .Synthesize _ _ _ => true
  | .CheckDeployment _ _ _ => true
  | .Evaluate _ => false
  | .Execute _ _ => false

/-- The authorization of a delegated variant (`Evaluate`, `Execute`);
`none` for the explicit-list variants. -/
def CallStack.delegatedAuth : CallStack → Option Authorization
  | .Evaluate a => some a
  | .Execute a _ => some a
  | _ => none

/-- The pending list of an explicit-list variant; `none` for the delegated
variants. -/
def CallStack.pendingList : CallStack → Option (List Req)
  | .Authorize requests _ _ => some requests
  | .Synthesize requests _ _ => some requests
  | .CheckDeployment requests _ _ => some requests
  | _ => none

/-- Three successive pops: the three results in order. -/
def CallStack.popThree (cs : CallStack) :
    Except String Req × Except String Req × Except String Req :=
  let p1 := cs.pop
  let p2 := p1.2.pop
  let p3 := p2.2.pop
  (p1.1, p2.1, p3.1)

/-- A sample program whose function `1` calls function `0` (which has no
calls), so the expected call counts are `1` for `0` and `2` for `1`. -/
def egCallProgram : Program :=
  { id := egProgramId
    functions := [(0, ⟨[]⟩), (1, ⟨[.call (.resource 0)]⟩)]
    closures := []
    records := [] }

/-- The stack of `egCallProgram`, with no imports. -/
def egCallStack : Stack := .mk egCallProgram [] [] 0 [] []

mutual

/-- The call-count recurrence as the spec states it: `CallCount s f n` holds
when `f` resolves to a function of `s` and `n` is `1` (for the function
itself) plus the summed counts of the callees of its function-call
instructions. -/
inductive CallCount : Stack → Identifier → Nat → Prop where
  | intro (s : Stack) (f : Identifier) (fn : Function) (total : Nat) :
      s.get_function f = .ok fn →
      CallCountInstrs s fn.instructions total →
      CallCount s f (1 + total)

/-- Summed contribution of a list of instructions to the call count. -/
inductive CallCountInstrs : Stack → List Instruction → Nat → Prop where
  | nil (s : Stack) : CallCountInstrs s [] 0
  | cons (s : Stack) (i : Instruction) (rest : List Instruction) (n m : Nat) :
      CallCountInstr s i n → CallCountInstrs s rest m →
      CallCountInstrs s (i :: rest) (n + m)

/-- Contribution of a single instruction: `0` for a non-call instruction and
for a closure invocation; the callee count of a function call, resolved
through the external stack for a locator and locally for a resource. -/
inductive CallCountInstr : Stack → Instruction → Nat → Prop where
  | other (s : Stack) (code : Nat) : CallCountInstr s (.other code) 0
  | notFunction (s : Stack) (op : CallOperator) :
      isFunctionCall s op = .ok false → CallCountInstr s (.call op) 0
  | resourceCall (s : Stack) (res : Identifier) (n : Nat) :
      isFunctionCall s (.resource res) = .ok true →
      CallCount s res n → CallCountInstr s (.call (.resource res)) n
  | locatorCall (s : Stack) (pid : ProgramID) (res : Identifier) (ext : Stack) (n : Nat) :
      isFunctionCall s (.locator pid res) = .ok true →
      s.get_external_stack pid = .ok ext →
      CallCount ext res n → CallCountInstr s (.call (.locator pid res)) n

end

/-! ## Association-list lemmas -/

theorem mapGet_mapInsert_self {K V : Type} [DecidableEq K] (m : List (K × V)) (k : K) (v : V) :
    mapGet (mapInsert m k v) k = some v := by
  induction m with
  | nil => simp [mapInsert, mapGet]
  | cons p rest ih =>
      obtain ⟨k', v'⟩ := p
      by_cases h : k' = k
      · simp [mapInsert, mapGet, h]
      · simp [mapInsert, mapGet, h, ih]

theorem mapGet_mapInsert_ne {K V : Type} [DecidableEq K] (m : List (K × V)) (k k' : K) (v : V)
    (h : k' ≠ k) : mapGet (mapInsert m k v) k' = mapGet m k' := by
  induction m with
  | nil =>
      have hne : ¬ k = k' := fun hh => h hh.symm
      simp [mapInsert, mapGet, hne]
  | cons p rest ih =>
      obtain ⟨k0, v0⟩ := p
      by_cases h0 : k0 = k
      · subst h0
        have hne : ¬ k0 = k' := fun hh => h hh.symm
        simp [mapInsert, mapGet, hne]
      · simp [mapInsert, mapGet, h0, ih]

/-! ## Key-cache theorems (C3, C5) -/

theorem beq_withProvingKeys_left (s t : Stack) (x : List (Identifier × ProvingKey)) :
    Stack.beq (s.withProvingKeys x) t = Stack.beq s t := by
  cases s; cases t; rfl

theorem beq_withProvingKeys_right (s t : Stack) (x : List (Identifier × ProvingKey)) :
    Stack.beq s (t.withProvingKeys x) = Stack.beq s t := by
  cases s; cases t; rfl

theorem beq_withVerifyingKeys_left (s t : Stack) (x : List (Identifier × VerifyingKey)) :
    Stack.beq (s.withVerifyingKeys x) t = Stack.beq s t := by
  cases s; cases t; rfl

theorem beq_withVerifyingKeys_right (s t : Stack) (x : List (Identifier × VerifyingKey)) :
    Stack.beq s (t.withVerifyingKeys x) = Stack.beq s t := by
  cases s; cases t; rfl

theorem insert_proving_key_snd (s : Stack) (f : Identifier) (pk : ProvingKey) :
    (s.insert_proving_key f pk).2 = s
      ∨ (s.insert_proving_key f pk).2 = s.withProvingKeys (mapInsert s.proving_keys f pk) := by
  unfold Stack.insert_proving_key
  cases s.program.contains_function f <;> simp

theorem insert_verifying_key_snd (s : Stack) (f : Identifier) (vk : VerifyingKey) :
    (s.insert_verifying_key f vk).2 = s
      ∨ (s.insert_verifying_key f vk).2 = s.withVerifyingKeys (mapInsert s.verifying_keys f vk) := by
  unfold Stack.insert_verifying_key
  cases s.program.contains_function f <;> simp

/-- Claim C3: inserting a key for an undeclared function fails and leaves the
stack (hence both caches) unchanged; inserting for a declared function
succeeds, overwrites only that function's entry of the one cache being
written, and leaves every other entry of that cache and the whole other
cache untouched. -/
theorem insert_key_spec (s : Stack) (f g : Identifier) (pk : ProvingKey) (vk : VerifyingKey) :
    (s.program.contains_function f = false →
        s.insert_proving_key f pk = (.error "Function does not exist in program", s)
      ∧ s.insert_verifying_key f vk = (.error "Function does not exist in program", s))
  ∧ (s.program.contains_function f = true →
        (s.insert_proving_key f pk).1 = .ok ()
      ∧ ((s.insert_proving_key f pk).2).get_proving_key f = .ok pk
      ∧ ((s.insert_proving_key f pk).2).contains_proving_key f = true
      ∧ (g ≠ f → mapGet ((s.insert_proving_key f pk).2).proving_keys g = mapGet s.proving_keys g)
      ∧ ((s.insert_proving_key f pk).2).verifying_keys = s.verifying_keys
      ∧ (s.insert_verifying_key f vk).1 = .ok ()
      ∧ ((s.insert_verifying_key f vk).2).get_verifying_key f = .ok vk
      ∧ ((s.insert_verifying_key f vk).2).contains_verifying_key f = true
      ∧ (g ≠ f → mapGet ((s.insert_verifying_key f vk).2).verifying_keys g = mapGet s.verifying_keys g)
      ∧ ((s.insert_verifying_key f vk).2).proving_keys = s.proving_keys) := by
  constructor
  · intro hf
    constructor
    · unfold Stack.insert_proving_key
      rw [hf]
    · unfold Stack.insert_verifying_key
      rw [hf]
  · intro hf
    cases s with
    | mk p e t u pks vks =>
        unfold Stack.insert_proving_key Stack.insert_verifying_key
        simp only [Stack.program] at hf ⊢
        rw [hf]
        refine ⟨rfl, ?_, ?_, ?_, rfl, rfl, ?_, ?_, ?_, rfl⟩
        · simp [Stack.withProvingKeys, Stack.get_proving_key, Stack.proving_keys,
            mapGet_mapInsert_self]
        · simp [Stack.withProvingKeys, Stack.contains_proving_key, Stack.proving_keys,
            mapContains, mapGet_mapInsert_self]
        · intro hg
          simp [Stack.withProvingKeys, Stack.proving_keys, mapGet_mapInsert_ne _ _ _ _ hg]
        · simp [Stack.withVerifyingKeys, Stack.get_verifying_key, Stack.verifying_keys,
            mapGet_mapInsert_self]
        · simp [Stack.withVerifyingKeys, Stack.contains_verifying_key, Stack.verifying_keys,
            mapContains, mapGet_mapInsert_self]
        · intro hg
          simp [Stack.withVerifyingKeys, Stack.verifying_keys, mapGet_mapInsert_ne _ _ _ _ hg]

/-- Witness for C3 at concrete inputs: function `0` is declared in `egProgram`
(the insert succeeds) and function `9` is not (the insert is rejected and the
stack is unchanged). -/
theorem insert_key_spec_witness :
    (egStack.insert_proving_key 0 5).1 = .ok ()
      ∧ egStack.insert_proving_key 9 5 = (.error "Function does not exist in program", egStack) :=
  ⟨((insert_key_spec egStack 0 1 5 6).2 (by decide)).1,
   ((insert_key_spec egStack 9 1 5 6).1 (by decide)).1⟩

/-- Claim C5: two stacks are equal exactly when their `program`,
`external_stacks` and `program_types` fields are equal (external stacks being
compared entrywise by this same equality); the key caches play no role, so
inserting or removing keys on either side never changes equality. -/
theorem stack_eq_spec (s1 s2 : Stack) (f : Identifier) (pk : ProvingKey) (vk : VerifyingKey) :
    (Stack.beq s1 s2 = true ↔
      (s1.program = s2.program
        ∧ extStacksBeq s1.external_stacks s2.external_stacks = true
        ∧ s1.program_types = s2.program_types))
  ∧ Stack.beq ((s1.insert_proving_key f pk).2) s2 = Stack.beq s1 s2
  ∧ Stack.beq s1 ((s2.insert_proving_key f pk).2) = Stack.beq s1 s2
  ∧ Stack.beq ((s1.insert_verifying_key f vk).2) s2 = Stack.beq s1 s2
  ∧ Stack.beq s1 ((s2.insert_verifying_key f vk).2) = Stack.beq s1 s2
  ∧ Stack.beq (s1.remove_proving_key f) s2 = Stack.beq s1 s2
  ∧ Stack.beq s1 (s2.remove_verifying_key f) = Stack.beq s1 s2 := by
  refine ⟨?_, ?_, ?_, ?_, ?_, ?_, ?_⟩
  · cases s1; cases s2
    simp [Stack.beq, Stack.program, Stack.external_stacks, Stack.program_types, and_assoc]
  · rcases insert_proving_key_snd s1 f pk with h | h <;>
      simp [h, beq_withProvingKeys_left]
  · rcases insert_proving_key_snd s2 f pk with h | h <;>
      simp [h, beq_withProvingKeys_right]
  · rcases insert_verifying_key_snd s1 f vk with h | h <;>
      simp [h, beq_withVerifyingKeys_left]
  · rcases insert_verifying_key_snd s2 f vk with h | h <;>
      simp [h, beq_withVerifyingKeys_right]
  · rw [Stack.remove_proving_key, beq_withProvingKeys_left]
  · rw [Stack.remove_verifying_key, beq_withVerifyingKeys_right]

/-! ## External-record resolution (C7) -/

/-- Claim C7: `contains_external_record` is a total predicate: it is `false`
whenever the locator names this stack's own program (because
`get_external_program` with the stack's own ID always fails, whatever the
external stacks hold), `false` whenever the locator's program is absent from
`external_stacks`, and otherwise reports whether the resolved external
program declares the record. -/
theorem contains_external_record_spec (s : Stack) (loc : Locator) (st : Stack) :
    (loc.program_id = s.program.id → s.contains_external_record loc = false)
  ∧ (mapGet s.external_stacks loc.program_id = none → s.contains_external_record loc = false)
  ∧ (loc.program_id ≠ s.program.id → mapGet s.external_stacks loc.program_id = some st →
      s.contains_external_record loc = st.program.contains_record loc.resource)
  ∧ (∃ e, s.get_external_program s.program.id = .error e) := by
  refine ⟨?_, ?_, ?_, ?_⟩
  · intro h
    simp [Stack.contains_external_record, Stack.get_external_program, h.symm]
  · intro h
    by_cases hid : s.program.id = loc.program_id
    · simp [Stack.contains_external_record, Stack.get_external_program, hid]
    · simp [Stack.contains_external_record, Stack.get_external_program, hid,
        Stack.get_external_stack, h, Except.map]
  · intro hne h
    have hid : ¬ s.program.id = loc.program_id := fun hh => hne hh.symm
    simp [Stack.contains_external_record, Stack.get_external_program, hid,
      Stack.get_external_stack, h, Except.map]
  · refine ⟨"Attempted to get the main program as an external program", ?_⟩
    simp [Stack.get_external_program]

/-! ## Stack construction (C2) -/

/-- Claim C2: `Stack::new` returns an error whenever the process already
contains the program ID, the network-level domain is wrong, the program has
no functions, the byte round trip does not reproduce the program, or the
text round trip does not; only when all five checks pass is construction
delegated to the internal initializer. -/
theorem stack_new_spec (codec : ProgramCodec) (initFn : Process → Program → Except String Stack)
    (process : Process) (program : Program) :
    ((process.contains_program program.id = true
        ∨ program.id.is_aleo = false
        ∨ program.functions = []
        ∨ (∀ bytes, codec.toBytes program = .ok bytes → codec.fromBytes bytes ≠ .ok program)
        ∨ codec.fromText (codec.toText program) ≠ .ok program)
      → ∃ e, Stack.new codec initFn process program = .error e)
  ∧ (process.contains_program program.id = false →
      program.id.is_aleo = true →
      program.functions ≠ [] →
      (∃ bytes, codec.toBytes program = .ok bytes ∧ codec.fromBytes bytes = .ok program) →
      codec.fromText (codec.toText program) = .ok program →
      Stack.new codec initFn process program = initFn process program) := by
  constructor
  · intro hfail
    unfold Stack.new
    cases h1 : process.contains_program program.id with
    | true => exact ⟨"Program already exists", by simp [h1]⟩
    | false =>
    cases h2 : program.id.is_aleo with
    | false =>
        exact ⟨"Program has an incorrect network-level domain (NLD)", by simp [h1, h2]⟩
    | true =>
    cases h3 : program.functions.isEmpty with
    | true => exact ⟨"No functions present in the deployment", by simp [h1, h2, h3]⟩
    | false =>
    cases htb : codec.toBytes program with
    | error e => exact ⟨e, by simp [h1, h2, h3, htb]⟩
    | ok bytes =>
    cases hfb : codec.fromBytes bytes with
    | error e => exact ⟨e, by simp [h1, h2, h3, htb, hfb]⟩
    | ok decoded =>
    by_cases hdec : program = decoded
    · subst hdec
      cases htx : codec.fromText (codec.toText program) with
      | error e => exact ⟨e, by simp [h1, h2, h3, htb, hfb, htx]⟩
      | ok parsed =>
      by_cases hpar : program = parsed
      · subst hpar
        -- every check passes, so some disjunct of the hypothesis is refuted
        exfalso
        rcases hfail with h | h | h | h | h
        · rw [h1] at h; exact Bool.false_ne_true h
        · rw [h2] at h; simp at h
        · rw [h] at h3; simp at h3
        · exact h bytes htb hfb
        · exact h htx
      · exact ⟨"Program string serialization failed",
          by simp [h1, h2, h3, htb, hfb, htx, hpar]⟩
    · exact ⟨"Program byte serialization failed", by simp [h1, h2, h3, htb, hfb, hdec]⟩
  · intro h1 h2 h3 hbytes htext
    obtain ⟨bytes, htb, hfb⟩ := hbytes
    have h3' : program.functions.isEmpty = false := by
      cases hfn : program.functions with
      | nil => exact absurd hfn h3
      | cons a l => rfl
    unfold Stack.new
    simp [h1, h2, h3', htb, hfb, htext]

/-- Witness for C2 at concrete inputs: with the identity codec and a trivial
initializer, construction of `egProgram` in an empty process succeeds and
delegates; construction of a program with no functions fails. -/
theorem stack_new_spec_witness :
    Stack.new
        ⟨fun p => .ok [p.id.name], fun _ => .ok egProgram,
          fun _ => "p", fun _ => .ok egProgram⟩
        (fun _ _ => .ok egStack) ⟨[]⟩ egProgram = .ok egStack
      ∧ ∃ e, Stack.new
          ⟨fun p => .ok [p.id.name], fun _ => .ok egProgram,
            fun _ => "p", fun _ => .ok egProgram⟩
          (fun _ _ => .ok egStack) ⟨[]⟩
          { id := ⟨2, "aleo"⟩, functions := [], closures := [], records := [] } = .error e := by
  constructor
  · have h := (stack_new_spec
        ⟨fun p => .ok [p.id.name], fun _ => .ok egProgram,
          fun _ => "p", fun _ => .ok egProgram⟩
        (fun _ _ => .ok egStack) ⟨[]⟩ egProgram).2
      (by decide) (by decide) (by decide) ⟨[0], rfl, rfl⟩ rfl
    rw [h]
  · exact (stack_new_spec
        ⟨fun p => .ok [p.id.name], fun _ => .ok egProgram,
          fun _ => "p", fun _ => .ok egProgram⟩
        (fun _ _ => .ok egStack) ⟨[]⟩
        { id := ⟨2, "aleo"⟩, functions := [], closures := [], records := [] }).1
      (Or.inr (Or.inr (Or.inl rfl)))

/-- Witness for C7 at concrete inputs: a record of the imported program is
found, and a locator naming the stack's own program yields `false`. -/
theorem contains_external_record_spec_witness :
    egStack2.contains_external_record ⟨⟨1, "aleo"⟩, 7⟩ = true
      ∧ egStack2.contains_external_record ⟨egProgramId, 7⟩ = false := by
  constructor
  · have h := (contains_external_record_spec egStack2 ⟨⟨1, "aleo"⟩, 7⟩ egExtStack).2.2.1
      (by decide) (by rfl)
    rw [h]
    decide
  · exact (contains_external_record_spec egStack2 ⟨egProgramId, 7⟩ egExtStack).1 (by decide)

/-! ## CallStack ordering and underflow (C1, C8) -/

theorem getElem?_append_middle {α : Type} (l : List α) (a : α) (rest : List α) :
    (l ++ a :: rest)[l.length]? = some a := by
  rw [List.getElem?_append_right (Nat.le_refl _)]
  simp

theorem getElem?_append_middle1 {α : Type} (l : List α) (a b : α) (rest : List α) :
    (l ++ a :: b :: rest)[l.length + 1]? = some b := by
  rw [List.getElem?_append_right (Nat.le_succ_of_le (Nat.le_refl _))]
  simp [Nat.add_sub_cancel_left]

theorem getElem?_append_middle2 {α : Type} (l : List α) (a b c : α) (rest : List α) :
    (l ++ a :: b :: c :: rest)[l.length + 1 + 1]? = some c := by
  rw [List.getElem?_append_right (Nat.le_succ_of_le (Nat.le_succ_of_le (Nat.le_refl _)))]
  have h2 : l.length + 1 + 1 - l.length = 2 := by omega
  rw [h2]
  simp

theorem popThree_evaluate (reqs : List Req) (r1 r2 r3 : Req) :
    (CallStack.Evaluate ⟨reqs ++ r1 :: r2 :: r3 :: [], reqs.length⟩).popThree
      = (.ok r1, .ok r2, .ok r3) := by
  simp only [CallStack.popThree, CallStack.pop, Authorization.next,
    getElem?_append_middle, getElem?_append_middle1, getElem?_append_middle2]

theorem popThree_execute (reqs : List Req) (e : Nat) (r1 r2 r3 : Req) :
    (CallStack.Execute ⟨reqs ++ r1 :: r2 :: r3 :: [], reqs.length⟩ e).popThree
      = (.ok r1, .ok r2, .ok r3) := by
  simp only [CallStack.popThree, CallStack.pop, Authorization.next,
    getElem?_append_middle, getElem?_append_middle1, getElem?_append_middle2]

/-- Claim C1 counterexample: a delegated (`Evaluate`) call stack whose
authorization still holds one unconsumed request (request `0`, cursor `0`)
refutes the claim as stated: pushing `1, 2, 3` and popping three times
yields `0, 1, 2`, not `1, 2, 3`. -/
theorem callStack_fifo_counterexample :
    ((((CallStack.Evaluate ⟨[0], 0⟩).push 1).push 2).push 3).popThree
        = (.ok 0, .ok 1, .ok 2)
      ∧ ¬ ((((CallStack.Evaluate ⟨[0], 0⟩).push 1).push 2).push 3).popThree
            = (.ok 1, .ok 2, .ok 3) := by
  constructor
  · decide
  · decide

/-- Claim C1 (amended): for every explicit-list variant, pushing
`r1, r2, r3` and popping three times yields `r3, r2, r1` (pop removes the
last element — LIFO); for a delegated variant whose authorization has already
consumed every previously enqueued request (cursor at the end of the queue),
the same pushes followed by three pops yield `r1, r2, r3` (the cursor-based
`next` is FIFO). -/
theorem callStack_ordering (cs : CallStack) (r1 r2 r3 : Req) :
    (cs.isExplicitList = true →
      (((cs.push r1).push r2).push r3).popThree = (.ok r3, .ok r2, .ok r1))
  ∧ (∀ a, cs.delegatedAuth = some a → a.cursor = a.requests.length →
      (((cs.push r1).push r2).push r3).popThree = (.ok r1, .ok r2, .ok r3)) := by
  constructor
  · intro hex
    cases cs with
    | Authorize requests pk auth =>
        simp [CallStack.popThree, CallStack.push, CallStack.pop]
    | Synthesize requests pk auth =>
        simp [CallStack.popThree, CallStack.push, CallStack.pop]
    | CheckDeployment requests pk a =>
        simp [CallStack.popThree, CallStack.push, CallStack.pop]
    | Evaluate a => simp [CallStack.isExplicitList] at hex
    | Execute a e => simp [CallStack.isExplicitList] at hex
  · intro a ha hcur
    cases cs with
    | Authorize requests pk auth => simp [CallStack.delegatedAuth] at ha
    | Synthesize requests pk auth => simp [CallStack.delegatedAuth] at ha
    | CheckDeployment requests pk ad => simp [CallStack.delegatedAuth] at ha
    | Evaluate a0 =>
        simp only [CallStack.delegatedAuth, Option.some.injEq] at ha
        subst ha
        obtain ⟨reqs, c⟩ := a0
        simp only at hcur
        subst hcur
        simp only [CallStack.push, Authorization.push]
        rw [show ((reqs ++ [r1]) ++ [r2]) ++ [r3] = reqs ++ r1 :: r2 :: r3 :: [] by simp]
        exact popThree_evaluate reqs r1 r2 r3
    | Execute a0 e =>
        simp only [CallStack.delegatedAuth, Option.some.injEq] at ha
        subst ha
        obtain ⟨reqs, c⟩ := a0
        simp only at hcur
        subst hcur
        simp only [CallStack.push, Authorization.push]
        rw [show ((reqs ++ [r1]) ++ [r2]) ++ [r3] = reqs ++ r1 :: r2 :: r3 :: [] by simp]
        exact popThree_execute reqs e r1 r2 r3

/-- Witness for the amended C1 at concrete inputs: an `Authorize` variant
pops `3, 2, 1`; an `Evaluate` variant whose queue (`[9]`) is fully consumed
(cursor `1`) pops `1, 2, 3`. -/
theorem callStack_ordering_witness :
    ((((CallStack.Authorize [] 0 ⟨[], 0⟩).push 1).push 2).push 3).popThree
        = (.ok 3, .ok 2, .ok 1)
      ∧ ((((CallStack.Evaluate ⟨[9], 1⟩).push 1).push 2).push 3).popThree
          = (.ok 1, .ok 2, .ok 3) :=
  ⟨(callStack_ordering (.Authorize [] 0 ⟨[], 0⟩) 1 2 3).1 rfl,
   (callStack_ordering (.Evaluate ⟨[9], 1⟩) 1 2 3).2 ⟨[9], 1⟩ rfl rfl⟩

/-- Claim C8: pop and peek on an empty explicit-list variant fail with the
"No more requests on the stack" error — returned as an error value, never a
panic or sentinel — and peek always returns exactly what the next pop would
return, leaving the call stack unchanged (peek is embedded without a state
component because the source never mutates under it). -/
theorem callStack_underflow_spec (cs : CallStack) :
    (cs.pendingList = some [] →
        cs.pop = (.error "No more requests on the stack", cs)
      ∧ cs.peek = .error "No more requests on the stack")
  ∧ cs.peek = (cs.pop).1 := by
  constructor
  · intro hp
    cases cs with
    | Authorize requests pk auth =>
        simp only [CallStack.pendingList, Option.some.injEq] at hp
        subst hp
        simp [CallStack.pop, CallStack.peek]
    | Synthesize requests pk auth =>
        simp only [CallStack.pendingList, Option.some.injEq] at hp
        subst hp
        simp [CallStack.pop, CallStack.peek]
    | CheckDeployment requests pk a =>
        simp only [CallStack.pendingList, Option.some.injEq] at hp
        subst hp
        simp [CallStack.pop, CallStack.peek]
    | Evaluate a => simp [CallStack.pendingList] at hp
    | Execute a e => simp [CallStack.pendingList] at hp
  · cases cs with
    | Authorize requests pk auth =>
        cases h : requests.getLast? <;> simp [CallStack.pop, CallStack.peek, h]
    | Synthesize requests pk auth =>
        cases h : requests.getLast? <;> simp [CallStack.pop, CallStack.peek, h]
    | CheckDeployment requests pk a =>
        cases h : requests.getLast? <;> simp [CallStack.pop, CallStack.peek, h]
    | Evaluate a =>
        cases h : a.requests[a.cursor]? <;>
          simp [CallStack.pop, CallStack.peek, Authorization.next, Authorization.peek_next, h]
    | Execute a e =>
        cases h : a.requests[a.cursor]? <;>
          simp [CallStack.pop, CallStack.peek, Authorization.next, Authorization.peek_next, h]

/-- Witness for C8 at a concrete input: an empty `Authorize` variant. -/
theorem callStack_underflow_spec_witness :
    (CallStack.Authorize [] 0 ⟨[], 0⟩).pop
        = (.error "No more requests on the stack", CallStack.Authorize [] 0 ⟨[], 0⟩)
      ∧ (CallStack.Authorize [] 0 ⟨[], 0⟩).peek = .error "No more requests on the stack" :=
  (callStack_underflow_spec (.Authorize [] 0 ⟨[], 0⟩)).1 rfl

/-! ## Replication of the shared payloads (C4) -/

/-- Claim C4: replicating a `CheckDeployment` or `Execute` call stack keeps
the variant and its other components, but places a copy of the payload's
current contents behind a fresh address: the replica's address differs from
the original's, holds the same contents at the moment of replication, and
writes through either address never change what the other address reads. -/
theorem replicate_fresh_payload (requests : List Req) (pk : PKey) (addr : Nat)
    (auth : Authorization) (h : Heap) :
    (addr < h.assignments.length →
      ((CallStack.CheckDeployment requests pk addr).replicate h).1
          = .CheckDeployment requests pk h.assignments.length
      ∧ h.assignments.length ≠ addr
      ∧ ((CallStack.CheckDeployment requests pk addr).replicate h).2.readA h.assignments.length
          = h.readA addr
      ∧ ((CallStack.CheckDeployment requests pk addr).replicate h).2.readA addr = h.readA addr
      ∧ (∀ v, ((((CallStack.CheckDeployment requests pk addr).replicate h).2.writeA
            h.assignments.length v).readA addr)
          = ((CallStack.CheckDeployment requests pk addr).replicate h).2.readA addr)
      ∧ (∀ v, ((((CallStack.CheckDeployment requests pk addr).replicate h).2.writeA addr v).readA
            h.assignments.length)
          = ((CallStack.CheckDeployment requests pk addr).replicate h).2.readA
              h.assignments.length))
  ∧ (addr < h.executions.length →
      ((CallStack.Execute auth addr).replicate h).1 = .Execute auth h.executions.length
      ∧ h.executions.length ≠ addr
      ∧ ((CallStack.Execute auth addr).replicate h).2.readE h.executions.length = h.readE addr
      ∧ ((CallStack.Execute auth addr).replicate h).2.readE addr = h.readE addr
      ∧ (∀ v, ((((CallStack.Execute auth addr).replicate h).2.writeE h.executions.length v).readE
            addr)
          = ((CallStack.Execute auth addr).replicate h).2.readE addr)
      ∧ (∀ v, ((((CallStack.Execute auth addr).replicate h).2.writeE addr v).readE
            h.executions.length)
          = ((CallStack.Execute auth addr).replicate h).2.readE h.executions.length)) := by
  constructor
  · intro hlt
    have hne : h.assignments.length ≠ addr := fun hh => absurd (hh ▸ hlt) (lt_irrefl _)
    obtain ⟨contents, hc⟩ : ∃ c, h.assignments[addr]? = some c :=
      ⟨h.assignments[addr], List.getElem?_eq_getElem hlt⟩
    refine ⟨?_, hne, ?_, ?_, ?_, ?_⟩
    · simp [CallStack.replicate, Heap.allocA]
    · simp [CallStack.replicate, Heap.allocA, Heap.readA, hc]
    · simp [CallStack.replicate, Heap.allocA, Heap.readA,
        List.getElem?_append_left hlt]
    · intro v
      simp only [CallStack.replicate, Heap.allocA, Heap.writeA, Heap.readA]
      rw [List.getElem?_set_ne hne]
    · intro v
      simp only [CallStack.replicate, Heap.allocA, Heap.writeA, Heap.readA]
      rw [List.getElem?_set_ne (Ne.symm hne)]
  · intro hlt
    have hne : h.executions.length ≠ addr := fun hh => absurd (hh ▸ hlt) (lt_irrefl _)
    obtain ⟨contents, hc⟩ : ∃ c, h.executions[addr]? = some c :=
      ⟨h.executions[addr], List.getElem?_eq_getElem hlt⟩
    refine ⟨?_, hne, ?_, ?_, ?_, ?_⟩
    · simp [CallStack.replicate, Heap.allocE, Authorization.replicate]
    · simp [CallStack.replicate, Heap.allocE, Heap.readE, hc]
    · simp [CallStack.replicate, Heap.allocE, Heap.readE,
        List.getElem?_append_left hlt]
    · intro v
      simp only [CallStack.replicate, Heap.allocE, Heap.writeE, Heap.readE]
      rw [List.getElem?_set_ne hne]
    · intro v
      simp only [CallStack.replicate, Heap.allocE, Heap.writeE, Heap.readE]
      rw [List.getElem?_set_ne (Ne.symm hne)]

/-- Witness for C4 at a concrete heap: one assignments cell `[5]` and one
execution cell `[6]`, both replicated to address `1`. -/
theorem replicate_fresh_payload_witness :
    ((CallStack.CheckDeployment [] 0 0).replicate ⟨[[5]], [[6]]⟩).1
        = .CheckDeployment [] 0 1
      ∧ ((CallStack.Execute ⟨[], 0⟩ 0).replicate ⟨[[5]], [[6]]⟩).1 = .Execute ⟨[], 0⟩ 1 :=
  ⟨((replicate_fresh_payload [] 0 0 ⟨[], 0⟩ ⟨[[5]], [[6]]⟩).1 (by decide)).1,
   ((replicate_fresh_payload [] 0 0 ⟨[], 0⟩ ⟨[[5]], [[6]]⟩).2 (by decide)).1⟩

/-! ## Call-graph accounting (C6) -/

theorem except_bind_ok {e a b : Type} (x : a) (f : a → Except e b) :
    (Except.ok x >>= f) = f x := rfl

theorem except_bind_error {e a b : Type} (err : e) (f : a → Except e b) :
    ((Except.error err : Except e a) >>= f) = .error err := rfl

theorem except_pure {e a : Type} (x : a) : (pure x : Except e a) = .ok x := rfl

theorem except_map_ok {e a b : Type} (f : a → b) (x : a) :
    (f <$> (Except.ok x : Except e a)) = .ok (f x) := rfl

theorem except_map_error {e a b : Type} (f : a → b) (err : e) :
    (f <$> (Except.error err : Except e a)) = .error err := rfl

theorem callStep_sound (s : Stack) (recur : Stack → Identifier → Except String Nat)
    (hrec : ∀ s' g k, recur s' g = .ok k → CallCount s' g k)
    (acc : Nat) (i : Instruction) (acc' : Nat)
    (hstep : callStep s recur acc i = .ok acc') :
    ∃ k, CallCountInstr s i k ∧ acc' = acc + k := by
  cases i with
  | other code =>
      simp only [callStep, except_pure, Except.ok.injEq] at hstep
      exact ⟨0, .other s code, by omega⟩
  | call op =>
      cases hfc : isFunctionCall s op with
      | error e => simp [callStep, hfc, except_bind_error] at hstep
      | ok b =>
          cases b with
          | false =>
              simp only [callStep, hfc, except_bind_ok, Bool.false_eq_true, if_false,
                except_pure, Except.ok.injEq] at hstep
              exact ⟨0, .notFunction s op hfc, by omega⟩
          | true =>
              cases op with
              | resource res =>
                  cases hr : recur s res with
                  | error e =>
                      simp [callStep, hfc, except_bind_ok, hr, except_map_error] at hstep
                  | ok k =>
                      simp [callStep, hfc, except_bind_ok, hr, except_map_ok] at hstep
                      exact ⟨k, .resourceCall s res k hfc (hrec s res k hr), by omega⟩
              | locator pid res =>
                  cases hx : s.get_external_stack pid with
                  | error e =>
                      simp [callStep, hfc, except_bind_ok, hx, except_bind_error] at hstep
                  | ok ext =>
                      cases hr : recur ext res with
                      | error e =>
                          simp [callStep, hfc, except_bind_ok, hx, hr,
                            except_map_error] at hstep
                      | ok k =>
                          simp [callStep, hfc, except_bind_ok, hx, hr,
                            except_map_ok] at hstep
                          exact ⟨k, .locatorCall s pid res ext k hfc hx (hrec ext res k hr),
                            by omega⟩

theorem foldCalls_sound (s : Stack) (recur : Stack → Identifier → Except String Nat)
    (hrec : ∀ s' g k, recur s' g = .ok k → CallCount s' g k) :
    ∀ (instrs : List Instruction) (acc n : Nat),
      instrs.foldlM (callStep s recur) acc = .ok n →
      ∃ m, CallCountInstrs s instrs m ∧ n = acc + m := by
  intro instrs
  induction instrs with
  | nil =>
      intro acc n hfold
      simp only [List.foldlM_nil, except_pure, Except.ok.injEq] at hfold
      exact ⟨0, .nil s, by omega⟩
  | cons i rest ih =>
      intro acc n hfold
      rw [List.foldlM_cons] at hfold
      cases hstep : callStep s recur acc i with
      | error e => rw [hstep] at hfold; simp [except_bind_error] at hfold
      | ok acc' =>
          rw [hstep, except_bind_ok] at hfold
          obtain ⟨k, hk, hacc⟩ := callStep_sound s recur hrec acc i acc' hstep
          obtain ⟨m, hm, hn⟩ := ih acc' n hfold
          exact ⟨k + m, .cons s i rest k m hk hm, by omega⟩

theorem getNumberOfCalls_sound :
    ∀ (fuel : Nat) (s : Stack) (f : Identifier) (n : Nat),
      getNumberOfCalls fuel s f = .ok n → CallCount s f n := by
  intro fuel
  induction fuel with
  | zero => intro s f n h; simp [getNumberOfCalls] at h
  | succ fuel ih =>
      intro s f n h
      unfold getNumberOfCalls at h
      cases hfn : s.get_function f with
      | error e => rw [hfn] at h; simp [except_bind_error] at h
      | ok fn =>
          rw [hfn, except_bind_ok] at h
          obtain ⟨m, hm, hn⟩ := foldCalls_sound s (getNumberOfCalls fuel) ih fn.instructions 1 n h
          rw [hn]
          exact .intro s f fn m hfn hm

theorem foldCalls_nocall (s : Stack) (recur : Stack → Identifier → Except String Nat) :
    ∀ (instrs : List Instruction) (acc : Nat),
      (∀ i ∈ instrs, ∀ op, i ≠ Instruction.call op) →
      instrs.foldlM (callStep s recur) acc = .ok acc := by
  intro instrs
  induction instrs with
  | nil => intro acc _; rfl
  | cons i rest ih =>
      intro acc h
      rw [List.foldlM_cons]
      cases i with
      | other code =>
          have hs : callStep s recur acc (.other code) = .ok acc := rfl
          rw [hs, except_bind_ok]
          exact ih acc (fun j hj => h j (List.mem_cons_of_mem _ hj))
      | call op => exact absurd rfl (h (.call op) (List.mem_cons_self _ _) op)

/-- Claim C6: any count returned by `get_number_of_calls` satisfies the spec
recurrence `CallCount` — `1` for the function itself plus the recursively
computed counts of the function-call callees, resolved through the external
stack for locators and locally for resources; in particular a declared
function with no `Call` instructions counts exactly `1`. -/
theorem getNumberOfCalls_spec (fuel : Nat) (s : Stack) (f : Identifier) (n : Nat) :
    (getNumberOfCalls fuel s f = .ok n → CallCount s f n)
  ∧ (∀ fn, s.get_function f = .ok fn →
      (∀ i ∈ fn.instructions, ∀ op, i ≠ Instruction.call op) →
      1 ≤ fuel →
      getNumberOfCalls fuel s f = .ok 1) := by
  constructor
  · exact getNumberOfCalls_sound fuel s f n
  · intro fn hfn hnc hfuel
    cases fuel with
    | zero => omega
    | succ fuel =>
        unfold getNumberOfCalls
        rw [hfn, except_bind_ok]
        exact foldCalls_nocall s (getNumberOfCalls fuel) fn.instructions 1 hnc

/-- Witness for C6 at concrete inputs: in `egCallStack`, function `0` (no
calls) counts `1` and function `1` (one local call to `0`) counts `2`;
both counts satisfy the recurrence. -/
theorem getNumberOfCalls_spec_witness :
    CallCount egCallStack 1 2 ∧ getNumberOfCalls 1 egCallStack 0 = .ok 1 :=
  ⟨(getNumberOfCalls_spec 2 egCallStack 1 2).1 (by decide),
   (getNumberOfCalls_spec 1 egCallStack 0 1).2 ⟨[]⟩ (by decide)
     (by intro i hi op; simp at hi) (by omega)⟩

/-! ## AHP prover initialization (C9) -/

theorem collectResults_forall2 {a b e : Type} (f : a → Except e b) :
    ∀ (xs : List a) (ys : List b), collectResults f xs = .ok ys →
      List.Forall₂ (fun x y => f x = .ok y) xs ys := by
  intro xs
  induction xs with
  | nil =>
      intro ys h
      simp only [collectResults, Except.ok.injEq] at h
      rw [← h]
      exact .nil
  | cons x xs ih =>
      intro ys h
      simp only [collectResults] at h
      cases hx : f x with
      | error err => rw [hx, except_bind_error] at h; cases h
      | ok y =>
          rw [hx, except_bind_ok] at h
          cases hrest : collectResults f xs with
          | error err => rw [hrest, except_bind_error] at h; cases h
          | ok ys' =>
              rw [hrest, except_bind_ok, except_pure] at h
              cases h
              exact .cons hx (ih ys' hrest)

/-- Claim C9: when `init_prover` succeeds, the returned state was built (by
the injected `prover::State::initialize`) from a mapping pairing each input
circuit with one assignments entry per input instance, the i-th entry being
`processInstance` of the i-th instance of that circuit's slice —
`List.Forall₂` forces equal lengths and the pointwise correspondence at
every index, i.e. instance order within a circuit is preserved. -/
theorem init_prover_spec {S : Type}
    (stInit : List (Circuit × List Assignments) → Except AHPError S)
    (gen : Inst → Except AHPError ConstraintSystem)
    (admissible : List Int → Except AHPError Unit)
    (circuits : List (Circuit × List Inst)) (st : S)
    (h : init_prover stInit gen admissible circuits = .ok st) :
    ∃ m, stInit m = .ok st
      ∧ List.Forall₂ (fun cp entry => entry.1 = cp.1
          ∧ List.Forall₂ (fun inst asg => processInstance gen admissible cp.1 inst = .ok asg)
              cp.2 entry.2)
        circuits m := by
  unfold init_prover at h
  cases hc : collectResults
      (fun cp => do
        let assignments ← collectResults (processInstance gen admissible cp.1) cp.2
        pure (cp.1, assignments))
      circuits with
  | error err => rw [hc, except_bind_error] at h; cases h
  | ok m =>
      rw [hc, except_bind_ok] at h
      refine ⟨m, h, ?_⟩
      refine (collectResults_forall2 _ circuits m hc).imp ?_
      intro cp entry hent
      simp only at hent
      cases ha : collectResults (processInstance gen admissible cp.1) cp.2 with
      | error err => rw [ha, except_bind_error] at hent; cases hent
      | ok asgs =>
          rw [ha, except_bind_ok, except_pure] at hent
          cases hent
          exact ⟨rfl, collectResults_forall2 _ cp.2 asgs ha⟩

/-- Witness for C9 at a concrete input: one circuit with one instance, with
`stInit` the identity; the theorem produces the mapping explicitly. -/
theorem init_prover_spec_witness :
    ∃ m, (.ok m : Except AHPError (List (Circuit × List Assignments)))
          = .ok [(egCircuit, [⟨[1], [], [1], [1]⟩])]
      ∧ List.Forall₂ (fun (cp : Circuit × List Inst) (entry : Circuit × List Assignments) =>
          entry.1 = cp.1
          ∧ List.Forall₂
              (fun inst asg =>
                processInstance (fun _ => .ok egCS) (fun _ => .ok ()) cp.1 inst = .ok asg)
              cp.2 entry.2)
        [(egCircuit, [0])] m :=
  init_prover_spec (fun l => .ok l) (fun _ => .ok egCS) (fun _ => .ok ())
    [(egCircuit, [0])] [(egCircuit, [⟨[1], [], [1], [1]⟩])] (by decide)

/-! ## Sparse inner product (C10) -/

theorem inner_product_fold (pv prv : List Int) (npv : Nat) :
    ∀ (row : List (Int × Nat)) (acc : Int),
      row.foldl
        (fun result entry =>
          let var :=
            if entry.2 < npv then (pv[entry.2]?).getD 0
            else (prv[entry.2 - npv]?).getD 0
          result + (if entry.1 = 1 then var else var * entry.1)) acc
      = acc + (row.map (fun entry =>
          let var :=
            if entry.2 < npv then (pv[entry.2]?).getD 0
            else (prv[entry.2 - npv]?).getD 0
          (if entry.1 = 1 then var else var * entry.1))).sum := by
  intro row
  induction row with
  | nil => intro acc; simp
  | cons e rest ih =>
      intro acc
      simp only [List.foldl_cons, List.map_cons, List.sum_cons, ih]
      ring

theorem inner_product_term (pv prv : List Int) (e : Int × Nat) :
    (let var :=
      if e.2 < pv.length then (pv[e.2]?).getD 0
      else (prv[e.2 - pv.length]?).getD 0
     (if e.1 = 1 then var else var * e.1)) = e.1 * ((pv ++ prv)[e.2]?).getD 0 := by
  have hvar :
      (if e.2 < pv.length then (pv[e.2]?).getD 0 else (prv[e.2 - pv.length]?).getD 0)
        = ((pv ++ prv)[e.2]?).getD 0 := by
    by_cases h1 : e.2 < pv.length
    · rw [if_pos h1, List.getElem?_append_left h1]
    · rw [if_neg h1, List.getElem?_append_right (Nat.le_of_not_lt h1)]
  simp only [hvar]
  by_cases h2 : e.1 = 1
  · rw [if_pos h2, h2, one_mul]
  · rw [if_neg h2, mul_comm]

theorem inner_product_checked_fold (pv prv : List Int) :
    ∀ (row : List (Int × Nat)) (acc : Int),
      (∀ e ∈ row, e.2 < pv.length + prv.length) →
      row.foldlM
        (fun result entry => do
          let var ←
            if entry.2 < pv.length then pv[entry.2]?
            else prv[entry.2 - pv.length]?
          pure (result + (if entry.1 = 1 then var else var * entry.1))) acc
      = some (row.foldl
          (fun result entry =>
            let var :=
              if entry.2 < pv.length then (pv[entry.2]?).getD 0
              else (prv[entry.2 - pv.length]?).getD 0
            result + (if entry.1 = 1 then var else var * entry.1)) acc) := by
  intro row
  induction row with
  | nil => intro acc _; rfl
  | cons e rest ih =>
      intro acc h
      have he := h e (List.mem_cons_self _ _)
      rw [List.foldlM_cons, List.foldl_cons]
      by_cases h1 : e.2 < pv.length
      · obtain ⟨v, hv⟩ : ∃ v, pv[e.2]? = some v :=
          ⟨pv[e.2], List.getElem?_eq_getElem h1⟩
        simp only [if_pos h1, hv, Option.getD_some, Option.bind_some, Option.some_bind]
        exact ih _ (fun x hx => h x (List.mem_cons_of_mem _ hx))
      · have h2 : e.2 - pv.length < prv.length := by omega
        obtain ⟨v, hv⟩ : ∃ v, prv[e.2 - pv.length]? = some v :=
          ⟨prv[e.2 - pv.length], List.getElem?_eq_getElem h2⟩
        simp only [if_neg h1, hv, Option.getD_some, Option.bind_some, Option.some_bind]
        exact ih _ (fun x hx => h x (List.mem_cons_of_mem _ hx))

/-- Claim C10: when `num_public_variables` is the length of the public
vector and every row index is below the combined length, `inner_product`
performs no out-of-bounds access (the checked variant, in which an
out-of-bounds read is a `none`-panic, returns the unchecked value) and
computes the sum over the row of coefficient times `z` at the entry's index,
where `z` is the public vector followed by the private vector. -/
theorem inner_product_spec (pv prv : List Int) (row : List (Int × Nat))
    (h : ∀ e ∈ row, e.2 < pv.length + prv.length) :
    inner_product_checked pv prv row pv.length
        = some (inner_product pv prv row pv.length)
      ∧ inner_product pv prv row pv.length
          = (row.map (fun e => e.1 * ((pv ++ prv)[e.2]?).getD 0)).sum := by
  constructor
  · exact inner_product_checked_fold pv prv row 0 h
  · unfold inner_product
    rw [inner_product_fold pv prv pv.length row 0, zero_add]
    congr 1
    exact List.map_congr_left (fun e _ => inner_product_term pv prv e)

/-- Witness for C10 at a concrete input: public `[1, 2]`, private `[3]`,
row `(5, 0), (1, 2)` — the checked product returns `5*1 + 1*3 = 8`. -/
theorem inner_product_spec_witness :
    inner_product_checked [1, 2] [3] [(5, 0), (1, 2)] 2
        = some (inner_product [1, 2] [3] [(5, 0), (1, 2)] 2)
      ∧ inner_product [1, 2] [3] [(5, 0), (1, 2)] 2
          = ([(5, 0), (1, 2)].map
              (fun e : Int × Nat => e.1 * ((([1, 2] : List Int) ++ [3])[e.2]?).getD 0)).sum :=
  inner_product_spec [1, 2] [3] [(5, 0), (1, 2)] (by decide)

end SnarkVM
